import Mathlib

/-!
# Verification of the okaara CLI dispatcher (src/okaara/cli.py)

A shallow embedding of the command-tree dispatcher of the okaara library:
the Section/Command tree, the resolver `Cli._find_closest_match`, the
option-parsing pipeline of `Command.execute` / `Command.parse_arguments`,
and the alternate parser strategies (`UnknownArgsParser`,
`PassThroughParser`).  Python dictionaries are modelled as association
lists with Python's insertion-order/update-in-place semantics; Python
values flowing through the option pipeline (None, booleans, strings,
lists) are modelled by the inductive type `Value`; exceptions are
modelled by explicit result variants.
-/

set_option linter.unusedVariables false

namespace Okaara

/-- Python values appearing in parsed keyword-argument dictionaries:
`null` models Python `None`, `bool`/`str` the corresponding literals,
`vlist` a Python list of values. -/
inductive Value where
  | null : Value
  | bool : Bool → Value
  | str : String → Value
  | vlist : List Value → Value

/-- Python's `value is None` identity test. -/
def Value.isNull : Value → Bool
  | Value.null => true
  | _ => false

theorem Value.isNull_iff (v : Value) : v.isNull = true ↔ v = Value.null := by
  cases v <;> simp [Value.isNull]

/-- Result of invoking a user-supplied validate/parse hook
(`validate_func` / `parse_func`).  A hook either returns a value,
raises `ValueError`/`TypeError` (the two types caught by the CLI), or
raises some other exception, which the CLI lets propagate. -/
inductive HookRes where
  | ok : Value → HookRes
  | valueError : String → HookRes
  | otherError : String → HookRes

/-- Lookup in a Python dict modelled as an association list
(`name in d` / `d[name]`): first entry with the given key. -/
def dictGet {α : Type} : List (String × α) → String → Option α
  | [], _ => Option.none
  | (k, v) :: rest, key => if k = key then some v else dictGet rest key

/-- Python dict assignment `d[key] = v`: updates the entry in place if the
key is present, otherwise appends a new entry (insertion order). -/
def dictSet {α : Type} : List (String × α) → String → α → List (String × α)
  | [], key, v => [(key, v)]
  | (k, w) :: rest, key, v =>
    if k = key then (key, v) :: rest else (k, w) :: dictSet rest key v

/-- Python `dict(pairs)`: builds a dict from a pair list, later values for
the same key overwriting earlier ones (with the key's first position). -/
def dictFromPairs {α : Type} (l : List (String × α)) : List (String × α) :=
  l.foldl (fun d p => dictSet d p.1 p.2) []

/-- Python `s.lstrip('-')`: removes every leading `-` character. -/
def lstripDashes (s : String) : String :=
  ⟨s.toList.dropWhile (fun c => c = '-')⟩

/-- Python `s.startswith('-')` (the option-prefix test used throughout
cli.py), expressed over the character list. -/
def startsWithDash (s : String) : Bool :=
  match s.toList with
  | '-' :: _ => true
  | _ => false

-- Option / Flag / OptionGroup / Command data model (cli.py) --------------------

/-- The `Option` from cli.py (named `CliOption` here because `Option` is taken by
Lean's core).  `is_flag` records whether the object was constructed as the
`Flag` subclass; `aliases = []` models Python `aliases=None` (the two are
indistinguishable to the parsing pipeline).  `validate_func`/`parse_func`
are the user-supplied hooks, `Option.none` modelling Python `None`. -/
structure CliOption where
  name : String
  description : String
  required : Bool := true
  allow_multiple : Bool := false
  aliases : List String := []
  default : Value := Value.null
  validate_func : Option (Value → HookRes) := Option.none
  parse_func : Option (Value → HookRes) := Option.none
  is_flag : Bool := false

/-- The `Option.keyword`: the name with leading dashes stripped. -/
def CliOption.keyword (o : CliOption) : String := lstripDashes o.name

/-- The `Flag` subclass constructor: `Option.__init__(name, description,
required=False, allow_multiple=False, aliases=aliases)`. -/
def Flag (name description : String) (aliases : List String := []) : CliOption :=
  { name := name, description := description, required := false,
    allow_multiple := false, aliases := aliases, default := Value.null,
    validate_func := Option.none, parse_func := Option.none, is_flag := true }

/-- The `OptionGroup` from cli.py: a named bag of options used for usage display. -/
structure OptionGroup where
  name : String
  description : Option String := Option.none
  options : List CliOption := []

/-- The duck-typed parser passed to a `Command` (`parser` argument): either
none (the default optparse-based `NoCatchErrorParser` is built from the
command's options), an `UnknownArgsParser(required_options, exit_on_abort)`,
or a `PassThroughParser`. -/
inductive ParserSpec where
  | unknownArgs : List (String × String) → Bool → ParserSpec
  | passThrough : ParserSpec

/-- The `Command` from cli.py.  The bound Python `method` is not stored: the
observable behaviour of `execute` is reported as an `ExecResult`, whose
`invoked` case carries exactly the positional and keyword arguments the
method would be called with. -/
structure Command where
  name : String
  description : String
  usage_description : Option String := Option.none
  parser : Option ParserSpec := Option.none
  options : List CliOption := []
  option_groups : List OptionGroup := []

/-- The `Command.all_options`: directly added options followed by each group's
options, in order. -/
def Command.all_options (c : Command) : List CliOption :=
  c.option_groups.foldl (fun acc g => acc ++ g.options) c.options

/-- The `CommandUsage` exception: optional list of missing required options
and optional list of unexpected option strings. -/
structure CmdUsage where
  missing_options : Option (List CliOption) := Option.none
  unexpected_options : Option (List String) := Option.none

-- UnknownArgsParser (cli.py lines 1127-1285) ----------------------------------

namespace UnknownArgsParser

/-- Outcome of `UnknownArgsParser.parse_args`: a successful parse returns
`Values(parsed)` plus the (always empty) leftover list; `exited` models
`sys.exit(os.EX_USAGE)` from `abort` when `exit_on_abort` is true; the two
`raised` cases model the `Unparsable` / `MissingRequired` exceptions raised
when it is false. -/
inductive UAResult where
  | ok : List (String × Value) → List String → UAResult
  | exited : Nat → UAResult
  | unparsable : UAResult
  | missingRequired : UAResult

/-- The exception classes `abort` can be asked to raise. -/
inductive AbortKind where
  | unparsable : AbortKind
  | missingRequired : AbortKind

/-- The local helper `arg_name` of `parse_args`: strips `--` or `-`,
returning `None` for a token with no leading dash. -/
def arg_name (arg : String) : Option String :=
  match arg.toList with
  | '-' :: '-' :: rest => some (String.mk rest)
  | '-' :: rest => some (String.mk rest)
  | _ => Option.none

/-- The `UnknownArgsParser.abort`: `sys.exit(os.EX_USAGE)` when `exit_on_abort`
is set, otherwise raise the supplied exception class. -/
def abort (exit_on_abort : Bool) (k : AbortKind) : UAResult :=
  if exit_on_abort then UAResult.exited 64
  else
    match k with
    | AbortKind.unparsable => UAResult.unparsable
    | AbortKind.missingRequired => UAResult.missingRequired

/-- The `while index < len(args)` scan of `parse_args`.  State: the argument
suffix still to process, the still-unsatisfied required names, and the
`parsed` dict.  Returns the leftover required names and the dict, or the
abort kind (`Unparsable`, raised mid-scan on a dashless key token or
`-h`/`--help`). -/
def uaScan : List String → List String → List (String × Value) →
    Except AbortKind (List String × List (String × Value))
  | [], required_names, parsed => Except.ok (required_names, parsed)
  | [item], required_names, parsed =>
    let required_names := required_names.erase item
    match arg_name item with
    | Option.none => Except.error AbortKind.unparsable
    | some name =>
      if name = "h" ∨ name = "help" then Except.error AbortKind.unparsable
      else Except.ok (required_names, dictSet parsed name (Value.bool true))
  | item :: next :: rest2, required_names, parsed =>
    let required_names := required_names.erase item
    match arg_name item with
    | Option.none => Except.error AbortKind.unparsable
    | some name =>
      if name = "h" ∨ name = "help" then Except.error AbortKind.unparsable
      else if startsWithDash next then
        uaScan (next :: rest2) required_names (dictSet parsed name (Value.bool true))
      else
        let parsed :=
          match dictGet parsed name with
          | some (Value.vlist l) => dictSet parsed name (Value.vlist (l ++ [Value.str next]))
          | some old => dictSet parsed name (Value.vlist [old, Value.str next])
          | Option.none => dictSet parsed name (Value.str next)
        uaScan rest2 required_names parsed

/-- The `UnknownArgsParser.parse_args(args)`: scan, then check the required
names; on success returns `(Values(parsed), [])`. -/
def parse_args (required_options : List (String × String)) (exit_on_abort : Bool)
    (args : List String) : UAResult :=
  match uaScan args (required_options.map Prod.fst) [] with
  | Except.error k => abort exit_on_abort k
  | Except.ok (required_names, parsed) =>
    if required_names.length > 0 then abort exit_on_abort AbortKind.missingRequired
    else UAResult.ok parsed []

end UnknownArgsParser

-- Default (optparse-backed) parser, modelled from the spec ---------------------

/-- Modelled from the spec: the declarative default parser of §4.3.  The
Python code delegates raw token processing to the standard-library
`optparse` module (via `NoCatchErrorParser`), which is not part of this
repository, so its token scan is modelled from the spec's words: every
option's `name` and `aliases` trigger the same destination (`dest=o.name`
per `Command.parse_arguments`), each destination starts at the option's
declared default, flags store `True` and never consume a token,
value-bearing options consume exactly one following token,
`allow_multiple` options accumulate occurrences into an ordered list
(first occurrence producing a one-element list), tokens matching no
trigger are positional unless they look like an option, in which case a
`CommandUsage` naming the token is raised (a value-bearing trigger in
final position also raises `CommandUsage`, optparse's
"requires an argument" error path). -/
def defaultParseLoop (opts : List CliOption) :
    List String → List (String × Value) → List String →
    Except CmdUsage (List (String × Value) × List String)
  | [], d, pos => Except.ok (d, pos)
  | tok :: rest, d, pos =>
    match opts.find? (fun o => o.name = tok ∨ tok ∈ o.aliases) with
    | some o =>
      if o.is_flag then defaultParseLoop opts rest (dictSet d o.name (Value.bool true)) pos
      else
        match rest with
        | [] => Except.error {}
        | v :: rest2 =>
          let newVal :=
            if o.allow_multiple then
              match dictGet d o.name with
              | some (Value.vlist l) => Value.vlist (l ++ [Value.str v])
              | _ => Value.vlist [Value.str v]
            else Value.str v
          defaultParseLoop opts rest2 (dictSet d o.name newVal) pos
    | Option.none =>
      if startsWithDash tok ∧ tok ≠ "-" then
        Except.error { unexpected_options := some [tok] }
      else defaultParseLoop opts rest d (pos ++ [tok])

/-- Modelled from the spec: `NoCatchErrorParser.parse_args` over the
command's declared options — destinations initialised to the defaults,
then the token scan; returns `(options_dict, leftover_positional_args)`. -/
def defaultParse (opts : List CliOption) (args : List String) :
    Except CmdUsage (List (String × Value) × List String) :=
  defaultParseLoop opts args (opts.foldl (fun d o => dictSet d o.name o.default) []) []

-- Command.parse_arguments / Command.execute (cli.py lines 203-461) -------------

/-- The first component of a duck-typed parser's `parse_args` return value,
as unpacked by `Command.parse_arguments` into `options`: a `Values`
instance wrapping a dict for the default and unknown-args parsers, but the
plain argument *list* for `PassThroughParser` (whose `parse_args` returns
`(args, {})`, in the opposite order from what `parse_arguments` expects). -/
inductive ParsedOptions where
  | values : List (String × Value) → ParsedOptions
  | rawList : List String → ParsedOptions

/-- The ways `Command.parse_arguments` can fail to return normally. -/
inductive ParseFailure where
  /-- a `CommandUsage` raised by the parser propagates -/
  | usageError : CmdUsage → ParseFailure
  /-- `OptionValidationFailed` raised after a hook raised `ValueError`/`TypeError` -/
  | validationFailed : ParseFailure
  /-- `sys.exit(code)` out of `UnknownArgsParser.abort` -/
  | exited : Nat → ParseFailure
  /-- `UnknownArgsParser.Unparsable` raised -/
  | unparsableRaised : ParseFailure
  /-- `UnknownArgsParser.MissingRequired` raised -/
  | missingRequiredRaised : ParseFailure
  /-- `AttributeError`: `options.__dict__` evaluated on a plain list -/
  | attributeError : ParseFailure
  /-- `KeyError`: `options.__dict__[name]` for a missing destination -/
  | keyError : ParseFailure
  /-- an exception other than `ValueError`/`TypeError` raised by a hook propagates -/
  | hookError : String → ParseFailure

/-- The `parser.parse_args(input_args)` as unpacked by `Command.parse_arguments`
into `(options, remaining_args)`, for each parser configuration. -/
def runParser (c : Command) (input_args : List String) :
    Except ParseFailure (ParsedOptions × List String) :=
  match c.parser with
  | Option.none =>
    match defaultParse c.all_options input_args with
    | Except.error e => Except.error (ParseFailure.usageError e)
    | Except.ok (d, remaining) => Except.ok (ParsedOptions.values d, remaining)
  | some (ParserSpec.unknownArgs required_options exit_on_abort) =>
    match UnknownArgsParser.parse_args required_options exit_on_abort input_args with
    | UnknownArgsParser.UAResult.ok parsed remaining =>
      Except.ok (ParsedOptions.values parsed, remaining)
    | UnknownArgsParser.UAResult.exited code => Except.error (ParseFailure.exited code)
    | UnknownArgsParser.UAResult.unparsable => Except.error ParseFailure.unparsableRaised
    | UnknownArgsParser.UAResult.missingRequired => Except.error ParseFailure.missingRequiredRaised
  | some ParserSpec.passThrough =>
    -- PassThroughParser.parse_args returns (args, {}): the argument list
    -- lands in `options`, the empty dict in `remaining_args` (modelled as
    -- the empty list; it is never observable, see getDictAttr).
    Except.ok (ParsedOptions.rawList input_args, [])

/-- The `options.__dict__`: succeeds on a `Values` instance, raises
`AttributeError` on the plain list produced by `PassThroughParser`. -/
def getDictAttr : ParsedOptions → Except ParseFailure (List (String × Value))
  | ParsedOptions.values d => Except.ok d
  | ParsedOptions.rawList _ => Except.error ParseFailure.attributeError

/-- The validation loop of `Command.parse_arguments`: for each option of the
(pre-filtered) list, look up `options.__dict__[vo.name]` and, if the value
is not `None`, run `validate_func`; `ValueError`/`TypeError` becomes
`OptionValidationFailed`, other exceptions propagate. -/
def validateLoop (d : List (String × Value)) : List CliOption → Except ParseFailure Unit
  | [] => Except.ok ()
  | vo :: rest =>
    match vo.validate_func with
    | Option.none => validateLoop d rest
    | some f =>
      match dictGet d vo.name with
      | Option.none => Except.error ParseFailure.keyError
      | some v =>
        if v.isNull then validateLoop d rest
        else
          match f v with
          | HookRes.ok _ => validateLoop d rest
          | HookRes.valueError _ => Except.error ParseFailure.validationFailed
          | HookRes.otherError m => Except.error (ParseFailure.hookError m)

/-- The parsing loop of `Command.parse_arguments`: for each option of the
(pre-filtered) list, if `options.__dict__[po.name]` is not `None` run
`parse_func` and store its return value back; same exception policy as
validation. -/
def parseFuncLoop (d : List (String × Value)) : List CliOption →
    Except ParseFailure (List (String × Value))
  | [] => Except.ok d
  | po :: rest =>
    match po.parse_func with
    | Option.none => parseFuncLoop d rest
    | some g =>
      match dictGet d po.name with
      | Option.none => Except.error ParseFailure.keyError
      | some v =>
        if v.isNull then parseFuncLoop d rest
        else
          match g v with
          | HookRes.ok w => parseFuncLoop (dictSet d po.name w) rest
          | HookRes.valueError _ => Except.error ParseFailure.validationFailed
          | HookRes.otherError m => Except.error (ParseFailure.hookError m)

/-- The `Command.parse_arguments(prompt, input_args)`: run the parser, apply the
validation functions, apply the parsing functions, and return
`(remaining_args, options.__dict__)`. -/
def Command.parse_arguments (c : Command) (input_args : List String) :
    Except ParseFailure (List String × List (String × Value)) :=
  match runParser c input_args with
  | Except.error r => Except.error r
  | Except.ok (po, remaining) =>
    match getDictAttr po with
    | Except.error r => Except.error r
    | Except.ok d0 =>
      match validateLoop d0 (c.all_options.filter (fun o => o.validate_func.isSome)) with
      | Except.error r => Except.error r
      | Except.ok () =>
        match parseFuncLoop d0 (c.all_options.filter (fun o => o.parse_func.isSome)) with
        | Except.error r => Except.error r
        | Except.ok d1 => Except.ok (remaining, d1)

/-- Observable outcome of `Command.execute(prompt, args)`. -/
inductive ExecResult where
  /-- `self.method(*arg_list, **clean_kwargs)` is reached with these arguments -/
  | invoked : List String → List (String × Value) → ExecResult
  /-- `return os.EX_DATAERR` after `OptionValidationFailed` -/
  | returnedDataErr : ExecResult
  /-- a `CommandUsage` exception propagates out of `execute` -/
  | raisedUsage : CmdUsage → ExecResult
  /-- `sys.exit(code)` (UnknownArgsParser abort) -/
  | exited : Nat → ExecResult
  /-- `UnknownArgsParser.Unparsable` propagates -/
  | unparsableRaised : ExecResult
  /-- `UnknownArgsParser.MissingRequired` propagates -/
  | missingRequiredRaised : ExecResult
  /-- an uncaught `AttributeError` propagates (PassThroughParser) -/
  | attributeError : ExecResult
  /-- an uncaught `KeyError` propagates -/
  | keyError : ExecResult
  /-- an uncaught non-ValueError hook exception propagates -/
  | hookError : String → ExecResult

/-- The `missing_required` computation of `Command.execute`: required
options whose name is absent from `kwarg_dict` or maps to `None`. -/
def Command.missing_required (c : Command) (kwarg_dict : List (String × Value)) :
    List CliOption :=
  c.all_options.filter (fun o =>
    o.required && ((dictGet kwarg_dict o.name).getD Value.null).isNull)

/-- The flag-defaulting loop of `Command.execute`: iterates the *directly
added* options (`self.options`, not `all_options()`), setting each `Flag`
whose parsed value is `None` to `False`.  `kwarg_dict[o.name]` raises
`KeyError` if a flag's name is not a key. -/
def flagDefaults (d : List (String × Value)) : List CliOption →
    Except Unit (List (String × Value))
  | [] => Except.ok d
  | o :: rest =>
    if o.is_flag then
      match dictGet d o.name with
      | Option.none => Except.error ()
      | some v =>
        if v.isNull then flagDefaults (dictSet d o.name (Value.bool false)) rest
        else flagDefaults d rest
    else flagDefaults d rest

/-- The key clean-up of `Command.execute`:
`dict([(k.lstrip('-'), v) for k, v in kwarg_dict.items()])`. -/
def cleanKwargs (d : List (String × Value)) : List (String × Value) :=
  dictFromPairs (d.map (fun p => (lstripDashes p.1, p.2)))

/-- How a `ParseFailure` escaping `parse_arguments` surfaces from
`execute`: `OptionValidationFailed` is caught and turned into
`os.EX_DATAERR`; a `CommandUsage` propagates to the caller; the rest are
uncaught exceptions or the process exit of `UnknownArgsParser.abort`. -/
def failToExec : ParseFailure → ExecResult
  | ParseFailure.usageError e => ExecResult.raisedUsage e
  | ParseFailure.validationFailed => ExecResult.returnedDataErr
  | ParseFailure.exited code => ExecResult.exited code
  | ParseFailure.unparsableRaised => ExecResult.unparsableRaised
  | ParseFailure.missingRequiredRaised => ExecResult.missingRequiredRaised
  | ParseFailure.attributeError => ExecResult.attributeError
  | ParseFailure.keyError => ExecResult.keyError
  | ParseFailure.hookError m => ExecResult.hookError m

/-- The `Command.execute(prompt, args)` (cli.py lines 203-240): parse the
arguments, fail with `CommandUsage` if required options are missing,
default unspecified flags to `False`, strip leading dashes from the
keyword names, and invoke the method. -/
def Command.execute (c : Command) (args : List String) : ExecResult :=
  match c.parse_arguments args with
  | Except.error f => failToExec f
  | Except.ok (arg_list, kwarg_dict) =>
    let missing := c.missing_required kwarg_dict
    if missing.length > 0 then
      ExecResult.raisedUsage { missing_options := some missing }
    else
      match flagDefaults kwarg_dict c.options with
      | Except.error () => ExecResult.keyError
      | Except.ok d2 => ExecResult.invoked arg_list (cleanKwargs d2)

-- Section tree and the resolver (cli.py lines 575-1123) ------------------------

/-- The `Section` from cli.py: a named node with `subsections` and `commands`
dicts (modelled as insertion-ordered association lists). -/
inductive Section where
  | mk : String → String → List (String × Section) → List (String × Command) → Section

def Section.name : Section → String
  | Section.mk n _ _ _ => n

def Section.description : Section → String
  | Section.mk _ d _ _ => d

def Section.subsections : Section → List (String × Section)
  | Section.mk _ _ subs _ => subs

def Section.commands : Section → List (String × Command)
  | Section.mk _ _ _ cmds => cmds

/-- The `Section.find_subsection`: dict lookup, `None` when absent. -/
def Section.find_subsection (s : Section) (name : String) : Option Section :=
  dictGet s.subsections name

/-- The `Section.find_command`: dict lookup, `None` when absent. -/
def Section.find_command (s : Section) (name : String) : Option Command :=
  dictGet s.commands name

/-- The `InvalidStructure` exception. -/
inductive InvalidStructure where
  | mk : InvalidStructure

/-- The `Section.verify_new_structure`: raises `InvalidStructure` if the name is
already a subsection or a command of this section. -/
def Section.verify_new_structure (s : Section) (name : String) :
    Except InvalidStructure Unit :=
  if (dictGet s.subsections name).isSome then Except.error InvalidStructure.mk
  else if (dictGet s.commands name).isSome then Except.error InvalidStructure.mk
  else Except.ok ()

/-- The `Section.add_subsection`: verify, then `self.subsections[name] = section`.
An `Except.error` means the exception was raised before the assignment, so
the section is unchanged. -/
def Section.add_subsection (s : Section) (sub : Section) :
    Except InvalidStructure Section :=
  match s.verify_new_structure sub.name with
  | Except.error e => Except.error e
  | Except.ok () =>
    Except.ok (Section.mk s.name s.description
      (dictSet s.subsections sub.name sub) s.commands)

/-- The `Section.add_command`: verify, then `self.commands[name] = command`. -/
def Section.add_command (s : Section) (c : Command) :
    Except InvalidStructure Section :=
  match s.verify_new_structure c.name with
  | Except.error e => Except.error e
  | Except.ok () =>
    Except.ok (Section.mk s.name s.description
      s.subsections (dictSet s.commands c.name c))

/-- The `Section.create_command`: build the `Command` and `add_command` it. -/
def Section.create_command (s : Section) (name description : String)
    (usage_description : Option String := Option.none)
    (parser : Option ParserSpec := Option.none) : Except InvalidStructure Section :=
  s.add_command { name := name, description := description,
                  usage_description := usage_description, parser := parser,
                  options := [], option_groups := [] }

/-- The `Section.create_subsection`: build the `Section` and `add_subsection` it. -/
def Section.create_subsection (s : Section) (name description : String) :
    Except InvalidStructure Section :=
  s.add_subsection (Section.mk name description [] [])

/-- The node returned by the resolver: a matched `Command` or the closest
matching `Section`. -/
inductive FoundNode where
  | sec : Section → FoundNode
  | cmd : Command → FoundNode

/-- The `Cli._find_closest_match(base_section, args)` (cli.py lines 1064-1123):
empty args return the current section; otherwise `args[0]` is matched
first against the commands, then against the subsections of the current
section (not descending further when the following token starts with
`-`); an unmatched token returns the current section with the full
argument list (the bad token included). -/
def find_closest_match : Section → List String → FoundNode × List String
  | base, [] => (FoundNode.sec base, [])
  | base, find_me :: rest =>
    match base.find_command find_me with
    | some c => (FoundNode.cmd c, rest)
    | Option.none =>
      match base.find_subsection find_me with
      | some sub =>
        match rest with
        | next :: _ =>
          if startsWithDash next then (FoundNode.sec sub, rest)
          else find_closest_match sub rest
        | [] => find_closest_match sub rest
      | Option.none => (FoundNode.sec base, find_me :: rest)

-- Formalisation of "named paths" through the tree (spec §4.1/§8) ---------------

/-- The `NamesCommandPath s p c`: the argument prefix `p` names a full valid
path from `s` through zero or more subsections to the command `c` — each
intermediate token names a subsection (and not a command, per the
structural-uniqueness invariant of §3 under which commands and
subsections of one section never share a name), and the last token names
`c` in the section reached. -/
inductive NamesCommandPath : Section → List String → Command → Prop where
  | here (s : Section) (x : String) (c : Command) :
      s.find_command x = some c → NamesCommandPath s [x] c
  | there (s : Section) (x : String) (p : List String) (sub : Section) (c : Command) :
      s.find_command x = Option.none → s.find_subsection x = some sub →
      NamesCommandPath sub p c → NamesCommandPath s (x :: p) c

/-- The `NamesSectionPath s p t`: the argument prefix `p` names a valid chain of
subsections from `s` down to the section `t` (each token naming a
subsection and not a command of the section reached so far). -/
inductive NamesSectionPath : Section → List String → Section → Prop where
  | refl (s : Section) : NamesSectionPath s [] s
  | step (s : Section) (x : String) (p : List String) (sub t : Section) :
      s.find_command x = Option.none → s.find_subsection x = some sub →
      NamesSectionPath sub p t → NamesSectionPath s (x :: p) t

-- Concrete structures used by the witnesses and counterexamples ---------------

/-- A command with no options, as built by `Section.create_command` with a
no-op method. -/
def noopCmd (n : String) : Command := { name := n, description := "" }

/-- Demo tree: root → "avengers" → "movie" → command "thor". -/
def movieSec : Section := Section.mk "movie" "" [] [("thor", noopCmd "thor")]

def avengersSec : Section := Section.mk "avengers" "" [("movie", movieSec)] []

def demoRoot : Section := Section.mk "" "" [("avengers", avengersSec)] []

/-- Tree exercising the resolver's dash heuristic against a command whose
name starts with `-`: root → section "s" → command "-c". -/
def dashCmdSec : Section := Section.mk "s" "" [] [("-c", noopCmd "-c")]

def dashCmdRoot : Section := Section.mk "" "" [("s", dashCmdSec)] []

/-- Tree exercising the dash heuristic against a section whose name starts
with `-`: root → section "a" → section "-b" (no children). -/
def dashSec : Section := Section.mk "-b" "" [] []

def dashSecParent : Section := Section.mk "a" "" [("-b", dashSec)] []

def dashSecRoot : Section := Section.mk "" "" [("a", dashSecParent)] []

/-- A flag reachable only through an option group. -/
def groupFlag : CliOption := Flag "--v" "verbose"

def flagGroup : OptionGroup := { name := "G", options := [groupFlag] }

/-- Command whose only flag lives in an option group (default parser). -/
def groupFlagCmd : Command := { name := "cmd", description := "", option_groups := [flagGroup] }

/-- Command with a single directly added flag (default parser). -/
def directFlagCmd : Command := { name := "cmd", description := "", options := [Flag "--v" "verbose"] }

/-- Command with a required `--username` option (default parser). -/
def usernameOpt : CliOption := { name := "--username", description := "u", required := true }

def usernameCmd : Command := { name := "create", description := "", options := [usernameOpt] }

/-- Command configured with the pass-through parser. -/
def passThroughCmd : Command :=
  { name := "p", description := "", parser := some ParserSpec.passThrough }

/-- A validate hook rejecting the string "bad" with `ValueError`. -/
def demoValidate : Value → HookRes := fun v =>
  match v with
  | Value.str s => if s = "bad" then HookRes.valueError "bad value" else HookRes.ok Value.null
  | _ => HookRes.ok Value.null

/-- A parse hook replacing any value with the string "X". -/
def demoTransform : Value → HookRes := fun _ => HookRes.ok (Value.str "X")

/-- An optional option carrying both hooks. -/
def hookedOpt : CliOption := { name := "--o", description := "", required := false,
                               validate_func := some demoValidate,
                               parse_func := some demoTransform }

def hookedCmd : Command := { name := "c", description := "", options := [hookedOpt] }

/-- A section with one subsection "dup" and one command "run", used for the
duplicate-name checks. -/
def dupSection : Section :=
  Section.mk "sec" "" [("dup", Section.mk "dup" "" [] [])] [("run", noopCmd "run")]

-- Helper definitions for stating the repeated-key property ------------------

/-- The argument vector `[k, v1, k, v2, ...]`: the trigger `k` repeated once
per value. -/
def interleaveKV (k : String) (vs : List String) : List String :=
  vs.foldr (fun v acc => k :: v :: acc) []

/-- One accumulation step of `UnknownArgsParser.parse_args` for an already
present key: a list value gets the new value appended, any other value is
wrapped into a two-element list. -/
def uaAccumStep (cur : Value) (v : String) : Value :=
  match cur with
  | Value.vlist l => Value.vlist (l ++ [Value.str v])
  | _ => Value.vlist [cur, Value.str v]

/-- Folding `uaAccumStep` over a list of further supplied values. -/
def uaAccum (cur : Value) (vs : List String) : Value :=
  vs.foldl uaAccumStep cur

-- ============================= Theorems =============================

-- Basic dict lemmas -----------------------------------------------------------

theorem dictGet_dictSet_self {α : Type} (d : List (String × α)) (k : String) (v : α) :
    dictGet (dictSet d k v) k = some v := by
  induction d with
  | nil => simp [dictSet, dictGet]
  | cons p rest ih =>
    obtain ⟨k', w⟩ := p
    by_cases h : k' = k
    · simp [dictSet, dictGet, h]
    · simp [dictSet, dictGet, h, ih]

theorem dictGet_dictSet_ne {α : Type} (d : List (String × α)) (k k' : String) (v : α)
    (h : k ≠ k') : dictGet (dictSet d k v) k' = dictGet d k' := by
  induction d with
  | nil => simp [dictSet, dictGet, h]
  | cons p rest ih =>
    obtain ⟨k0, w⟩ := p
    by_cases h0 : k0 = k
    · subst h0
      simp [dictSet, dictGet, h]
    · simp [dictSet, dictGet, h0, ih]

theorem dictSet_keys {α : Type} (d : List (String × α)) (k : String) (v : α)
    (h : (dictGet d k).isSome) :
    (dictSet d k v).map Prod.fst = d.map Prod.fst := by
  induction d with
  | nil => simp [dictGet] at h
  | cons p rest ih =>
    obtain ⟨k0, w⟩ := p
    by_cases h0 : k0 = k
    · subst h0
      simp [dictSet]
    · simp [dictGet, h0] at h
      simp [dictSet, h0, ih h]

theorem dictGet_append {α : Type} (xs ys : List (String × α)) (k : String) :
    dictGet (xs ++ ys) k = ((dictGet xs k).rec (dictGet ys k) (fun v => some v)) := by
  induction xs with
  | nil => simp [dictGet]
  | cons p rest ih =>
    obtain ⟨k0, w⟩ := p
    by_cases h0 : k0 = k
    · simp [dictGet, h0]
    · simp [dictGet, h0, ih]

theorem dictGet_eq_none_of_not_mem {α : Type} (d : List (String × α)) (k : String)
    (h : k ∉ d.map Prod.fst) : dictGet d k = Option.none := by
  induction d with
  | nil => simp [dictGet]
  | cons p rest ih =>
    obtain ⟨k0, w⟩ := p
    simp only [List.map_cons, List.mem_cons] at h
    push_neg at h
    simp only [dictGet]
    rw [if_neg (fun hh => h.1 hh.symm)]
    exact ih h.2


-- Resolver lemmas and claims C1 / C4 / C5 -------------------------------------

theorem NamesCommandPath.ne_nil {s : Section} {p : List String} {c : Command}
    (h : NamesCommandPath s p c) : p ≠ [] := by
  cases h <;> simp

/-- One-step unfolding of the resolver on a non-empty argument list. -/
theorem find_closest_match_cons (base : Section) (x : String) (rest : List String) :
    find_closest_match base (x :: rest) =
      match base.find_command x with
      | some c => (FoundNode.cmd c, rest)
      | Option.none =>
        match base.find_subsection x with
        | some sub =>
          match rest with
          | next :: _ =>
            if startsWithDash next then (FoundNode.sec sub, rest)
            else find_closest_match sub rest
          | [] => find_closest_match sub rest
        | Option.none => (FoundNode.sec base, x :: rest) := rfl

theorem find_closest_match_command (base : Section) (x : String)
    (rest : List String) (c : Command) (hc : base.find_command x = some c) :
    find_closest_match base (x :: rest) = (FoundNode.cmd c, rest) := by
  rw [find_closest_match_cons, hc]

theorem find_closest_match_no_match (base : Section) (x : String)
    (rest : List String) (hc : base.find_command x = Option.none)
    (hs : base.find_subsection x = Option.none) :
    find_closest_match base (x :: rest) = (FoundNode.sec base, x :: rest) := by
  rw [find_closest_match_cons, hc, hs]

theorem find_closest_match_recurse (base sub : Section) (x y : String)
    (rest : List String) (hc : base.find_command x = Option.none)
    (hs : base.find_subsection x = some sub) (hy : startsWithDash y = false) :
    find_closest_match base (x :: y :: rest) = find_closest_match sub (y :: rest) := by
  rw [find_closest_match_cons, hc, hs]
  simp [hy]

theorem find_closest_match_last (base sub : Section) (x : String)
    (hc : base.find_command x = Option.none)
    (hs : base.find_subsection x = some sub) :
    find_closest_match base [x] = find_closest_match sub [] := by
  rw [find_closest_match_cons, hc, hs]

/-- C1 (amended): if `p` names a full valid path from `s` through zero or
more sections to the command `c`, and no path component after the first
starts with the option-prefix character `-`, then for every tail `extra`
the resolver returns exactly `(c, extra)` on `p ++ extra`. -/
theorem resolver_full_path_returns_command (s : Section) (p extra : List String)
    (c : Command) (hp : NamesCommandPath s p c)
    (hdash : ∀ x ∈ p.tail, startsWithDash x = false) :
    find_closest_match s (p ++ extra) = (FoundNode.cmd c, extra) := by
  induction hp generalizing extra with
  | here s x c hc =>
    exact find_closest_match_command s x extra c hc
  | there s x p sub c hc hs hsub ih =>
    obtain ⟨y, p', rfl⟩ := List.exists_cons_of_ne_nil hsub.ne_nil
    have hy : startsWithDash y = false := hdash y (by simp)
    have ihy := ih extra (fun z hz => hdash z (List.mem_cons_of_mem _ hz))
    calc find_closest_match s ((x :: y :: p') ++ extra)
        = find_closest_match sub ((y :: p') ++ extra) :=
          find_closest_match_recurse s sub x y (p' ++ extra) hc hs hy
      _ = (FoundNode.cmd c, extra) := ihy

/-- Witness for C1's theorem: in the demo tree,
`["avengers", "movie", "thor", "a1"]` resolves to the command `thor` with
remaining arguments `["a1"]`. -/
theorem resolver_full_path_returns_command_witness :
    find_closest_match demoRoot ["avengers", "movie", "thor", "a1"] =
      (FoundNode.cmd (noopCmd "thor"), ["a1"]) :=
  resolver_full_path_returns_command demoRoot ["avengers", "movie", "thor"] ["a1"]
    (noopCmd "thor")
    (NamesCommandPath.there _ _ _ _ _ rfl rfl
      (NamesCommandPath.there _ _ _ _ _ rfl rfl
        (NamesCommandPath.here _ _ _ rfl)))
    (by decide)

/-- Counterexample to C1 as stated: in the tree root → section "s" →
command "-c", the argument vector `["s", "-c"]` names a full valid path to
the command `-c` with zero extra tokens, yet the resolver stops at the
section "s" (the dash heuristic fires on `args[1] = "-c"`), so it does not
return `(the command, [])`. -/
theorem resolver_full_path_counterexample :
    ¬ ∀ (s : Section) (p extra : List String) (c : Command),
        NamesCommandPath s p c →
        find_closest_match s (p ++ extra) = (FoundNode.cmd c, extra) := by
  intro h
  have hpath : NamesCommandPath dashCmdRoot ["s", "-c"] (noopCmd "-c") :=
    NamesCommandPath.there _ _ _ _ _ rfl rfl (NamesCommandPath.here _ _ _ rfl)
  have hres := h dashCmdRoot ["s", "-c"] [] (noopCmd "-c") hpath
  have hactual : find_closest_match dashCmdRoot (["s", "-c"] ++ []) =
      (FoundNode.sec dashCmdSec, ["-c"]) := rfl
  rw [hactual] at hres
  injection hres with h1 h2
  cases h1

/-- C4 (amended): if `p` names a valid chain of subsections from `s` down
to `t`, no component of `p` after the first starts with `-`, and `bad`
names neither a command nor a subsection of `t`, then the resolver on
`p ++ bad :: rest` returns the section `t` together with the tail starting
at `bad` (the invalid token is not consumed); in particular with `p = []`
an unmatched first token returns `(s, args)` unchanged. -/
theorem resolver_partial_path_returns_section (s : Section) (p : List String)
    (t : Section) (bad : String) (rest : List String)
    (hp : NamesSectionPath s p t)
    (hdash : ∀ x ∈ p.tail, startsWithDash x = false)
    (hc : t.find_command bad = Option.none)
    (hs : t.find_subsection bad = Option.none) :
    find_closest_match s (p ++ bad :: rest) = (FoundNode.sec t, bad :: rest) := by
  induction hp with
  | refl s =>
    exact find_closest_match_no_match s bad rest hc hs
  | step s x p sub t hxc hxs hsub ih =>
    have ihy := ih (fun z hz => hdash z (List.mem_of_mem_tail hz)) hc hs
    cases p with
    | nil =>
      cases hsub
      rcases hb : startsWithDash bad with _ | _
      · calc find_closest_match s ([x] ++ bad :: rest)
            = find_closest_match sub (bad :: rest) :=
              find_closest_match_recurse s sub x bad rest hxc hxs hb
          _ = (FoundNode.sec sub, bad :: rest) :=
              find_closest_match_no_match sub bad rest hc hs
      · show find_closest_match s (x :: bad :: rest) = (FoundNode.sec sub, bad :: rest)
        rw [find_closest_match_cons, hxc, hxs]
        simp [hb]
    | cons y p' =>
      have hy : startsWithDash y = false := hdash y (by simp)
      calc find_closest_match s ((x :: y :: p') ++ bad :: rest)
          = find_closest_match sub ((y :: p') ++ bad :: rest) :=
            find_closest_match_recurse s sub x y (p' ++ bad :: rest) hxc hxs hy
        _ = (FoundNode.sec t, bad :: rest) := ihy

/-- Witness for C4's theorem: `["avengers", "movie", "msmarvel", "x"]`
resolves to the section "movie" with the invalid token "msmarvel" left
unconsumed at the head of the remaining arguments. -/
theorem resolver_partial_path_returns_section_witness :
    find_closest_match demoRoot ["avengers", "movie", "msmarvel", "x"] =
      (FoundNode.sec movieSec, ["msmarvel", "x"]) :=
  resolver_partial_path_returns_section demoRoot ["avengers", "movie"] movieSec
    "msmarvel" ["x"]
    (NamesSectionPath.step _ _ _ _ _ rfl rfl
      (NamesSectionPath.step _ _ _ _ _ rfl rfl (NamesSectionPath.refl _)))
    (by decide) rfl rfl

/-- Counterexample to C4 as stated: in the tree root → "a" → "-b", the
vector `["a", "-b", "z"]` is a valid section path through depth 2 whose
token "z" matches nothing under "-b", so the claim demands
`(section "-b", ["z"])`; the resolver instead stops at "a" (dash heuristic
on `args[1] = "-b"`) and returns `(section "a", ["-b", "z"])`. -/
theorem resolver_partial_path_counterexample :
    ¬ ∀ (s : Section) (p : List String) (t : Section) (bad : String)
        (rest : List String),
        NamesSectionPath s p t →
        t.find_command bad = Option.none →
        t.find_subsection bad = Option.none →
        find_closest_match s (p ++ bad :: rest) = (FoundNode.sec t, bad :: rest) := by
  intro h
  have hpath : NamesSectionPath dashSecRoot ["a", "-b"] dashSec :=
    NamesSectionPath.step _ _ _ _ _ rfl rfl
      (NamesSectionPath.step _ _ _ _ _ rfl rfl (NamesSectionPath.refl _))
  have hres := h dashSecRoot ["a", "-b"] dashSec "z" [] hpath rfl rfl
  have hactual : find_closest_match dashSecRoot (["a", "-b"] ++ ["z"]) =
      (FoundNode.sec dashSecParent, ["-b", "z"]) := rfl
  rw [hactual] at hres
  injection hres with h1 h2
  exact absurd h2 (by decide)

/-- C5 (confirmed): when `args[0]` matches a subsection (and no command)
and the next token starts with the option-prefix character `-`, the
resolver stops descending and returns that subsection with `args[1:]`. -/
theorem resolver_option_short_circuit (s sub : Section) (a0 a1 : String)
    (rest : List String)
    (hc : s.find_command a0 = Option.none)
    (hs : s.find_subsection a0 = some sub)
    (hdash : startsWithDash a1 = true) :
    find_closest_match s (a0 :: a1 :: rest) = (FoundNode.sec sub, a1 :: rest) := by
  rw [find_closest_match_cons, hc, hs]
  simp [hdash]

/-- Witness for C5's theorem: `["avengers", "--help"]` stops at the
"avengers" subsection with `["--help"]` remaining. -/
theorem resolver_option_short_circuit_witness :
    find_closest_match demoRoot ["avengers", "--help"] =
      (FoundNode.sec avengersSec, ["--help"]) :=
  resolver_option_short_circuit demoRoot avengersSec "avengers" "--help" []
    rfl rfl (by decide)

-- Claim C9: duplicate names under a Section raise InvalidStructure -------------

theorem verify_new_structure_duplicate (s : Section) (name : String)
    (h : (dictGet s.subsections name).isSome ∨ (dictGet s.commands name).isSome) :
    s.verify_new_structure name = Except.error InvalidStructure.mk := by
  unfold Section.verify_new_structure
  rcases h with h | h
  · rw [if_pos h]
  · by_cases h1 : (dictGet s.subsections name).isSome
    · rw [if_pos h1]
    · rw [if_neg h1, if_pos h]

/-- C9 (confirmed): adding a subsection or a command (directly or through a
`create_*` call) under a name that already identifies a subsection or a
command of the section raises `InvalidStructure`; since
`verify_new_structure` raises before any assignment, the section's
`subsections` and `commands` dicts are unchanged (here: no updated section
is produced). -/
theorem section_add_duplicate_raises (s : Section) (name : String)
    (h : (dictGet s.subsections name).isSome ∨ (dictGet s.commands name).isSome) :
    (∀ sub : Section, sub.name = name →
        s.add_subsection sub = Except.error InvalidStructure.mk) ∧
    (∀ c : Command, c.name = name →
        s.add_command c = Except.error InvalidStructure.mk) ∧
    (∀ description : String,
        s.create_subsection name description = Except.error InvalidStructure.mk) ∧
    (∀ (description : String) (u : Option String) (pr : Option ParserSpec),
        s.create_command name description u pr = Except.error InvalidStructure.mk) := by
  have hv := verify_new_structure_duplicate s name h
  refine ⟨?_, ?_, ?_, ?_⟩
  · intro sub hn
    unfold Section.add_subsection
    rw [hn, hv]
  · intro c hn
    unfold Section.add_command
    rw [hn, hv]
  · intro description
    unfold Section.create_subsection Section.add_subsection
    rw [show (Section.mk name description [] []).name = name from rfl, hv]
  · intro description u pr
    unfold Section.create_command Section.add_command
    rw [show (Command.mk name description u pr [] []).name = name from rfl, hv]

/-- Witness for C9's theorem: `dupSection` (subsection "dup", command
"run") rejects a new subsection named "dup" and a new command named
"run". -/
theorem section_add_duplicate_raises_witness :
    dupSection.create_subsection "dup" "x" = Except.error InvalidStructure.mk ∧
    dupSection.add_command (noopCmd "run") = Except.error InvalidStructure.mk :=
  ⟨(section_add_duplicate_raises dupSection "dup" (Or.inl rfl)).2.2.1 "x",
   (section_add_duplicate_raises dupSection "run" (Or.inr rfl)).2.1 (noopCmd "run") rfl⟩

-- Claim C3: the pass-through parser breaks execute --------------------------

/-- C3 (code bug): for every command configured with `PassThroughParser`,
`execute` never reaches the method.  `PassThroughParser.parse_args`
returns `(args, {})` while `Command.parse_arguments` unpacks the result
as `(options, remaining_args)`, so `options` is the plain argument list
and evaluating `options.__dict__` raises an uncaught `AttributeError` —
instead of invoking the action with `args` as positional arguments and no
keyword arguments, as its own docstring promises. -/
theorem passthrough_execute_attribute_error (c : Command) (args : List String)
    (hp : c.parser = some ParserSpec.passThrough) :
    c.execute args = ExecResult.attributeError := by
  unfold Command.execute Command.parse_arguments runParser
  rw [hp]
  rfl

/-- Witness for C3's theorem at the concrete pass-through command. -/
theorem passthrough_execute_attribute_error_witness :
    passThroughCmd.execute ["a", "b"] = ExecResult.attributeError :=
  passthrough_execute_attribute_error passThroughCmd ["a", "b"] rfl

-- Claim C10: the unknown-args parser never yields positional arguments --------

theorem failToExec_ne_invoked (f : ParseFailure) (pos : List String)
    (kw : List (String × Value)) : failToExec f ≠ ExecResult.invoked pos kw := by
  cases f <;> simp [failToExec]

theorem ua_abort_ne_ok (eoa : Bool) (k : UnknownArgsParser.AbortKind)
    (parsed : List (String × Value)) (rem : List String) :
    UnknownArgsParser.abort eoa k ≠ UnknownArgsParser.UAResult.ok parsed rem := by
  cases eoa <;> cases k <;> simp [UnknownArgsParser.abort]

theorem ua_parse_args_leftover_nil (req : List (String × String)) (eoa : Bool)
    (args : List String) (parsed : List (String × Value)) (rem : List String)
    (h : UnknownArgsParser.parse_args req eoa args =
      UnknownArgsParser.UAResult.ok parsed rem) : rem = [] := by
  unfold UnknownArgsParser.parse_args at h
  rcases hs : UnknownArgsParser.uaScan args (req.map Prod.fst) [] with k | ⟨rn, p⟩ <;>
    rw [hs] at h <;> dsimp only at h
  · exact absurd h (ua_abort_ne_ok eoa k parsed rem)
  · by_cases hr : rn.length > 0
    · rw [if_pos hr] at h
      exact absurd h (ua_abort_ne_ok eoa _ parsed rem)
    · rw [if_neg hr] at h
      injection h with h1 h2
      exact h2.symm

theorem ua_arg_name_eq_none (item : String) (h : startsWithDash item = false) :
    UnknownArgsParser.arg_name item = Option.none := by
  unfold UnknownArgsParser.arg_name
  split
  · exfalso
    rename_i rest heq
    unfold startsWithDash at h
    rw [heq] at h
    simp at h
  · exfalso
    rename_i rest heq
    unfold startsWithDash at h
    rw [heq] at h
    simp at h
  · rfl

theorem uaScan_bad_key (item : String) (rest req : List String)
    (parsed : List (String × Value))
    (h : startsWithDash item = false ∨ item = "-h" ∨ item = "--help") :
    UnknownArgsParser.uaScan (item :: rest) req parsed =
      Except.error UnknownArgsParser.AbortKind.unparsable := by
  have hname : UnknownArgsParser.arg_name item = Option.none ∨
      UnknownArgsParser.arg_name item = some "h" ∨
      UnknownArgsParser.arg_name item = some "help" := by
    rcases h with h | h | h
    · exact Or.inl (ua_arg_name_eq_none item h)
    · subst h
      exact Or.inr (Or.inl rfl)
    · subst h
      exact Or.inr (Or.inr rfl)
  cases rest with
  | nil => rcases hname with h | h | h <;> simp [UnknownArgsParser.uaScan, h]
  | cons next rest2 => rcases hname with h | h | h <;> simp [UnknownArgsParser.uaScan, h]

/-- C10 (confirmed): the unknown-args parser produces no positional
arguments and aborts on dashless key tokens and on help triggers.
Part 1: whenever a command configured with an `UnknownArgsParser` reaches
its method, the positional-argument list is empty.  Part 2: a token at a
key position that does not start with `-` — and likewise the help tokens
`-h`/`--help` — aborts the scan with `Unparsable` instead of becoming a
positional argument.  Part 3: an `Unparsable` scan abort becomes
`sys.exit(os.EX_USAGE)` when `exit_on_abort` is set and a raised
`Unparsable` exception otherwise (usage text having been printed by
`self.usage()`, which is display-only and not modelled). -/
theorem unknown_args_no_positionals :
    (∀ (c : Command) (req : List (String × String)) (eoa : Bool)
        (args pos : List String) (kw : List (String × Value)),
        c.parser = some (ParserSpec.unknownArgs req eoa) →
        c.execute args = ExecResult.invoked pos kw → pos = []) ∧
    (∀ (item : String) (rest req : List String) (parsed : List (String × Value)),
        (startsWithDash item = false ∨ item = "-h" ∨ item = "--help") →
        UnknownArgsParser.uaScan (item :: rest) req parsed =
          Except.error UnknownArgsParser.AbortKind.unparsable) ∧
    (∀ (req : List (String × String)) (eoa : Bool) (args : List String),
        UnknownArgsParser.uaScan args (req.map Prod.fst) [] =
          Except.error UnknownArgsParser.AbortKind.unparsable →
        UnknownArgsParser.parse_args req eoa args =
          (if eoa then UnknownArgsParser.UAResult.exited 64
           else UnknownArgsParser.UAResult.unparsable)) := by
  refine ⟨?_, uaScan_bad_key, ?_⟩
  · intro c req eoa args pos kw hp hex
    rcases hpa : c.parse_arguments args with f | ⟨al, kd⟩
    · unfold Command.execute at hex
      rw [hpa] at hex
      exact absurd hex (failToExec_ne_invoked f pos kw)
    · have hal : al = [] := by
        unfold Command.parse_arguments runParser at hpa
        rw [hp] at hpa
        dsimp only at hpa
        rcases hu : UnknownArgsParser.parse_args req eoa args with
          ⟨parsed, rem⟩ | code | _ | _ <;> rw [hu] at hpa <;>
          dsimp only [getDictAttr] at hpa
        · rcases hv : validateLoop parsed
              (c.all_options.filter (fun o => o.validate_func.isSome)) with r | ⟨⟩ <;>
            rw [hv] at hpa <;> dsimp only at hpa
          · cases hpa
          · rcases hw : parseFuncLoop parsed
                (c.all_options.filter (fun o => o.parse_func.isSome)) with r | d1 <;>
              rw [hw] at hpa <;> dsimp only at hpa
            · cases hpa
            · injection hpa with hpair
              have : rem = al := congrArg Prod.fst hpair
              rw [← this]
              exact ua_parse_args_leftover_nil req eoa args parsed rem hu
        · cases hpa
        · cases hpa
        · cases hpa
      subst hal
      unfold Command.execute at hex
      rw [hpa] at hex
      dsimp only at hex
      by_cases hm : (c.missing_required kd).length > 0
      · rw [if_pos hm] at hex
        cases hex
      · rw [if_neg hm] at hex
        rcases hf : flagDefaults kd c.options with ⟨⟩ | d2 <;> rw [hf] at hex <;>
          dsimp only at hex
        · cases hex
        · injection hex with h1 h2
          exact h1.symm
  · intro req eoa args h
    unfold UnknownArgsParser.parse_args
    rw [h]
    cases eoa <;> rfl

/-- Witness for C10's theorem: the dashless token "foo" aborts the scan,
and with `exit_on_abort = False` the whole parse raises `Unparsable`. -/
theorem unknown_args_no_positionals_witness :
    UnknownArgsParser.uaScan ["foo"] [] [] =
      Except.error UnknownArgsParser.AbortKind.unparsable ∧
    UnknownArgsParser.parse_args [] false ["foo"] =
      UnknownArgsParser.UAResult.unparsable := by
  constructor
  · exact unknown_args_no_positionals.2.1 "foo" [] [] [] (Or.inl (by decide))
  · have h := unknown_args_no_positionals.2.2 [] false ["foo"]
      (unknown_args_no_positionals.2.1 "foo" [] [] [] (Or.inl (by decide)))
    simpa using h

-- Claim C7: repeated keys in the unknown-args parser ---------------------------

theorem arg_name_double_dash (kn : String) :
    UnknownArgsParser.arg_name ("--" ++ kn) = some kn := by
  unfold UnknownArgsParser.arg_name
  have h : ("--" ++ kn).toList = '-' :: '-' :: kn.toList := by
    show ("--" ++ kn).data = _
    rw [String.data_append]
    rfl
  rw [h]
  rfl

theorem uaAccum_vlist (l : List Value) (ws : List String) :
    uaAccum (Value.vlist l) ws = Value.vlist (l ++ ws.map Value.str) := by
  induction ws generalizing l with
  | nil => simp [uaAccum]
  | cons w ws ih =>
    show uaAccum (uaAccumStep (Value.vlist l) w) ws = _
    rw [show uaAccumStep (Value.vlist l) w = Value.vlist (l ++ [Value.str w]) from rfl, ih]
    simp

theorem uaAccum_str (v0 : String) (vs : List String) :
    uaAccum (Value.str v0) vs =
      (if vs = [] then Value.str v0
       else Value.vlist (Value.str v0 :: vs.map Value.str)) := by
  cases vs with
  | nil => rfl
  | cons v vs1 =>
    show uaAccum (uaAccumStep (Value.str v0) v) vs1 = _
    rw [show uaAccumStep (Value.str v0) v = Value.vlist [Value.str v0, Value.str v] from rfl,
      uaAccum_vlist]
    simp

/-- The scan step consuming one `key value` pair when the key is already
present: the stored value accumulates by `uaAccumStep`. -/
theorem uaScan_step_acc (item next : String) (rest2 : List String)
    (kn : String) (cur : Value)
    (hn : UnknownArgsParser.arg_name item = some kn)
    (hh : ¬(kn = "h" ∨ kn = "help"))
    (hd : startsWithDash next = false) :
    UnknownArgsParser.uaScan (item :: next :: rest2) [] [(kn, cur)] =
      UnknownArgsParser.uaScan rest2 [] [(kn, uaAccumStep cur next)] := by
  simp only [UnknownArgsParser.uaScan, List.erase_nil, hn]
  rw [if_neg hh]
  simp only [hd, Bool.false_eq_true, if_false]
  cases cur <;> simp [dictGet, dictSet, uaAccumStep]

/-- The scan step consuming one `key value` pair when the dict is still
empty: the bare string value is stored. -/
theorem uaScan_step_first (item next : String) (rest2 : List String) (kn : String)
    (hn : UnknownArgsParser.arg_name item = some kn)
    (hh : ¬(kn = "h" ∨ kn = "help"))
    (hd : startsWithDash next = false) :
    UnknownArgsParser.uaScan (item :: next :: rest2) [] [] =
      UnknownArgsParser.uaScan rest2 [] [(kn, Value.str next)] := by
  simp only [UnknownArgsParser.uaScan, List.erase_nil, hn]
  rw [if_neg hh]
  simp only [hd, Bool.false_eq_true, if_false]
  simp [dictGet, dictSet]

theorem uaScan_interleave_acc (k kn : String)
    (hk_name : UnknownArgsParser.arg_name k = some kn)
    (hkh : ¬(kn = "h" ∨ kn = "help"))
    (vs : List String) (hv : ∀ v ∈ vs, startsWithDash v = false) (cur : Value) :
    UnknownArgsParser.uaScan (interleaveKV k vs) [] [(kn, cur)] =
      Except.ok ([], [(kn, uaAccum cur vs)]) := by
  induction vs generalizing cur with
  | nil => rfl
  | cons v vs ih =>
    rw [show interleaveKV k (v :: vs) = k :: v :: interleaveKV k vs from rfl,
      uaScan_step_acc k v (interleaveKV k vs) kn cur hk_name hkh (hv v (by simp)),
      ih (fun w hw => hv w (List.mem_cons_of_mem _ hw))]
    rfl

/-- C7 (amended): in the unknown-args parser, a value-bearing key supplied
once parses to the bare scalar value; supplied `n ≥ 2` times it parses to
the ordered list of all `n` supplied values in the order the user supplied
them (the list is created on the second occurrence). -/
theorem unknown_args_repeated_accumulate (kn v0 : String) (vs : List String)
    (eoa : Bool) (hkh : ¬(kn = "h" ∨ kn = "help"))
    (hv : ∀ v ∈ v0 :: vs, startsWithDash v = false) :
    UnknownArgsParser.parse_args [] eoa (interleaveKV ("--" ++ kn) (v0 :: vs)) =
      UnknownArgsParser.UAResult.ok
        [(kn, if vs = [] then Value.str v0
              else Value.vlist (Value.str v0 :: vs.map Value.str))] [] := by
  have hscan : UnknownArgsParser.uaScan (interleaveKV ("--" ++ kn) (v0 :: vs)) [] [] =
      Except.ok ([], [(kn, uaAccum (Value.str v0) vs)]) := by
    rw [show interleaveKV ("--" ++ kn) (v0 :: vs) =
        ("--" ++ kn) :: v0 :: interleaveKV ("--" ++ kn) vs from rfl,
      uaScan_step_first ("--" ++ kn) v0 (interleaveKV ("--" ++ kn) vs) kn
        (arg_name_double_dash kn) hkh (hv v0 (by simp)),
      uaScan_interleave_acc ("--" ++ kn) kn (arg_name_double_dash kn) hkh vs
        (fun w hw => hv w (List.mem_cons_of_mem _ hw)) (Value.str v0)]
  unfold UnknownArgsParser.parse_args
  rw [show List.map Prod.fst ([] : List (String × String)) = [] from rfl, hscan]
  dsimp only
  rw [uaAccum_str]
  rfl

/-- Counterexample to C7 as stated: a single occurrence of `--k a` parses
to the bare string `a`, not to the one-element list `['a']` the claim
requires. -/
theorem unknown_args_single_occurrence_counterexample :
    UnknownArgsParser.parse_args [] false ["--k", "a"] =
      UnknownArgsParser.UAResult.ok [("k", Value.str "a")] [] ∧
    UnknownArgsParser.parse_args [] false ["--k", "a"] ≠
      UnknownArgsParser.UAResult.ok [("k", Value.vlist [Value.str "a"])] [] := by
  constructor
  · rfl
  · intro h
    rw [show UnknownArgsParser.parse_args [] false ["--k", "a"] =
      UnknownArgsParser.UAResult.ok [("k", Value.str "a")] [] from rfl] at h
    injection h with h1 h2
    injection h1 with h3 h4
    injection h3 with h5 h6
    cases h6

/-- Witness for C7's theorem: `--k a --k b` accumulates to `['a', 'b']` in
supplied order. -/
theorem unknown_args_repeated_accumulate_witness :
    UnknownArgsParser.parse_args [] false (interleaveKV ("--" ++ "k") ["a", "b"]) =
      UnknownArgsParser.UAResult.ok
        [("k", Value.vlist [Value.str "a", Value.str "b"])] [] := by
  have h := unknown_args_repeated_accumulate "k" "a" ["b"] false (by decide)
    (by intro v hv; fin_cases hv <;> decide)
  simpa using h

-- Claim C2: flag defaulting ---------------------------------------------------

theorem flagDefaults_keys (os : List CliOption) (d d2 : List (String × Value))
    (h : flagDefaults d os = Except.ok d2) :
    d2.map Prod.fst = d.map Prod.fst := by
  induction os generalizing d with
  | nil =>
    injection h with h1
    rw [← h1]
  | cons o rest ih =>
    unfold flagDefaults at h
    by_cases hf : o.is_flag = true
    · rw [if_pos hf] at h
      rcases hg : dictGet d o.name with _ | v <;> rw [hg] at h <;> dsimp only at h
      · cases h
      · by_cases hv : v.isNull = true
        · rw [if_pos hv] at h
          rw [ih _ h, dictSet_keys]
          rw [hg]
          rfl
        · rw [if_neg hv] at h
          exact ih _ h
    · rw [if_neg hf] at h
      exact ih _ h

theorem flagDefaults_keeps_false (os : List CliOption) (d d2 : List (String × Value))
    (n : String) (hQ : dictGet d n = some (Value.bool false))
    (h : flagDefaults d os = Except.ok d2) :
    dictGet d2 n = some (Value.bool false) := by
  induction os generalizing d with
  | nil =>
    injection h with h1
    rw [← h1]
    exact hQ
  | cons o rest ih =>
    unfold flagDefaults at h
    by_cases hf : o.is_flag = true
    · rw [if_pos hf] at h
      rcases hg : dictGet d o.name with _ | v <;> rw [hg] at h <;> dsimp only at h
      · cases h
      · by_cases hv : v.isNull = true
        · rw [if_pos hv] at h
          by_cases hn : o.name = n
          · rw [hn, hQ] at hg
            injection hg with hg1
            rw [← hg1] at hv
            simp [Value.isNull] at hv
          · refine ih _ ?_ h
            rw [dictGet_dictSet_ne d o.name n _ hn]
            exact hQ
        · rw [if_neg hv] at h
          exact ih _ hQ h
    · rw [if_neg hf] at h
      exact ih _ hQ h

theorem flagDefaults_forces_false (os : List CliOption) (d d2 : List (String × Value))
    (o : CliOption) (ho : o ∈ os) (hf : o.is_flag = true)
    (hP : dictGet d o.name = some Value.null ∨
          dictGet d o.name = some (Value.bool false))
    (h : flagDefaults d os = Except.ok d2) :
    dictGet d2 o.name = some (Value.bool false) := by
  induction os generalizing d with
  | nil => cases ho
  | cons o1 rest ih =>
    unfold flagDefaults at h
    rcases List.mem_cons.mp ho with rfl | ho1
    · rw [if_pos hf] at h
      rcases hg : dictGet d o.name with _ | v <;> rw [hg] at h <;> dsimp only at h
      · cases h
      · by_cases hv : v.isNull = true
        · rw [if_pos hv] at h
          refine flagDefaults_keeps_false rest _ _ o.name ?_ h
          exact dictGet_dictSet_self d o.name (Value.bool false)
        · rw [if_neg hv] at h
          have hvf : v = Value.bool false := by
            rcases hP with hP | hP <;> rw [hP] at hg <;> injection hg with hg1
            · exact absurd (by rw [← hg1]; rfl) hv
            · exact hg1.symm
          refine flagDefaults_keeps_false rest _ _ o.name ?_ h
          rw [hg, hvf]
    · by_cases hf1 : o1.is_flag = true
      · rw [if_pos hf1] at h
        rcases hg : dictGet d o1.name with _ | v <;> rw [hg] at h <;> dsimp only at h
        · cases h
        · by_cases hv : v.isNull = true
          · rw [if_pos hv] at h
            refine ih _ ho1 ?_ h
            by_cases hn : o1.name = o.name
            · rw [hn]
              rw [dictGet_dictSet_self]
              exact Or.inr rfl
            · rw [dictGet_dictSet_ne d o1.name o.name _ hn]
              exact hP
          · rw [if_neg hv] at h
            exact ih _ ho1 hP h
      · rw [if_neg hf1] at h
        exact ih _ ho1 hP h

theorem dictGet_foldl_dictSet {α : Type} (l acc : List (String × α)) (k : String) :
    dictGet (l.foldl (fun d p => dictSet d p.1 p.2) acc) k =
      (match dictGet l.reverse k with
       | some v => some v
       | Option.none => dictGet acc k) := by
  induction l generalizing acc with
  | nil => simp [dictGet]
  | cons p rest ih =>
    rw [List.foldl_cons, ih, List.reverse_cons, dictGet_append]
    rcases dictGet rest.reverse k with _ | v
    · dsimp only
      by_cases h : p.1 = k
      · subst h
        rw [dictGet_dictSet_self]
        simp [dictGet]
      · rw [dictGet_dictSet_ne acc p.1 k _ h]
        simp [dictGet, h]
    · rfl

theorem dictGet_cleanKwargs_unique (l : List (String × Value)) (n : String) (v : Value)
    (hnd : (l.map Prod.fst).Nodup)
    (hcl : ∀ k ∈ l.map Prod.fst, lstripDashes k = lstripDashes n → k = n)
    (hv : dictGet l n = some v) :
    dictGet (cleanKwargs l) (lstripDashes n) = some v := by
  unfold cleanKwargs dictFromPairs
  rw [dictGet_foldl_dictSet]
  have hmain : dictGet ((l.map (fun p => (lstripDashes p.1, p.2))).reverse)
      (lstripDashes n) = some v := by
    induction l with
    | nil => cases hv
    | cons p rest ih =>
      simp only [List.map_cons, List.reverse_cons]
      rw [dictGet_append]
      by_cases hp : p.1 = n
      · have hvv : v = p.2 := by
          unfold dictGet at hv
          rw [if_pos hp] at hv
          injection hv with h1
          exact h1.symm
        have hnotin : n ∉ rest.map Prod.fst := by
          intro hmem
          have := List.nodup_cons.mp hnd
          rw [hp] at this
          exact this.1 hmem
        have hnone : dictGet ((rest.map (fun p => (lstripDashes p.1, p.2))).reverse)
            (lstripDashes n) = Option.none := by
          apply dictGet_eq_none_of_not_mem
          intro hmem
          simp only [List.map_reverse, List.mem_reverse, List.map_map, List.mem_map,
            Function.comp] at hmem
          obtain ⟨q, hq, hqs⟩ := hmem
          have hqn : q.1 = n :=
            hcl q.1 (List.mem_map_of_mem Prod.fst (List.mem_cons_of_mem p hq)) hqs
          exact hnotin (hqn ▸ List.mem_map_of_mem Prod.fst hq)
        rw [hnone]
        dsimp only
        unfold dictGet
        rw [if_pos (by rw [hp]), hvv]
      · have hvrest : dictGet rest n = some v := by
          unfold dictGet at hv
          rw [if_neg hp] at hv
          exact hv
        have hih := ih (List.nodup_cons.mp hnd).2
          (fun k hk => hcl k (List.mem_cons_of_mem _ hk)) hvrest
        rw [hih]
  rw [hmain]

/-- C2 (amended): after `execute` parses its arguments and the
required-option check passes, every Flag *directly added* to the command
(`self.options`) whose parsed value is null is set to boolean false in the
keyword arguments passed to the action (stated under the spec's
uniqueness invariant: parsed keys are distinct and no other parsed key
collides with the flag's keyword after dashes are stripped).  Flags that
live only in an `OptionGroup` are skipped by the defaulting loop and may
reach the action as null, as the counterexample shows. -/
theorem direct_flags_default_false (c : Command) (args rem pos : List String)
    (d kw : List (String × Value)) (o : CliOption)
    (hpa : c.parse_arguments args = Except.ok (rem, d))
    (hex : c.execute args = ExecResult.invoked pos kw)
    (ho : o ∈ c.options) (hf : o.is_flag = true)
    (hnull : dictGet d o.name = some Value.null)
    (hnd : (d.map Prod.fst).Nodup)
    (hcl : ∀ k ∈ d.map Prod.fst, lstripDashes k = lstripDashes o.name → k = o.name) :
    dictGet kw o.keyword = some (Value.bool false) := by
  unfold Command.execute at hex
  rw [hpa] at hex
  dsimp only at hex
  by_cases hm : (c.missing_required d).length > 0
  · rw [if_pos hm] at hex
    cases hex
  · rw [if_neg hm] at hex
    rcases hfd : flagDefaults d c.options with ⟨⟩ | d2 <;> rw [hfd] at hex <;>
      dsimp only at hex
    · cases hex
    · injection hex with h1 h2
      rw [← h2]
      have hval : dictGet d2 o.name = some (Value.bool false) :=
        flagDefaults_forces_false c.options d d2 o ho hf (Or.inl hnull) hfd
      have hkeys : d2.map Prod.fst = d.map Prod.fst :=
        flagDefaults_keys c.options d d2 hfd
      exact dictGet_cleanKwargs_unique d2 o.name (Value.bool false)
        (hkeys ▸ hnd) (fun k hk => hcl k (hkeys ▸ hk)) hval

/-- Witness for C2's theorem: the directly added flag of `directFlagCmd`
reaches the action as `False` when not supplied. -/
theorem direct_flags_default_false_witness :
    dictGet [("v", Value.bool false)] ((Flag "--v" "verbose").keyword) =
      some (Value.bool false) :=
  direct_flags_default_false directFlagCmd [] [] [] [("--v", Value.null)]
    [("v", Value.bool false)] (Flag "--v" "verbose") rfl rfl
    (by simp [directFlagCmd]) rfl rfl (by decide) (by decide)

/-- Counterexample to C2 as stated: `groupFlagCmd` carries its only Flag
inside an `OptionGroup`; executing it with no arguments reaches the action
with that flag's keyword bound to null (Python `None`), not false —
`execute` iterates only `self.options` when defaulting flags. -/
theorem flags_never_null_counterexample :
    ¬ ∀ (c : Command) (args pos : List String) (kw : List (String × Value)),
        c.execute args = ExecResult.invoked pos kw →
        ∀ o ∈ c.all_options, o.is_flag = true →
          dictGet kw o.keyword ≠ some Value.null := by
  intro h
  exact h groupFlagCmd [] [] [("v", Value.null)] rfl groupFlag
    (by simp [Command.all_options, groupFlagCmd, flagGroup]) rfl rfl

-- Claim C6: missing required options ------------------------------------------

/-- C6 (confirmed): when a command with the default parser parses its
arguments successfully but some required options are absent or null,
`execute` raises `CommandUsage` whose missing list is exactly the set of
required options (direct or in groups) whose name is absent from the
parsed keyword arguments or maps to null — no more and no fewer
(membership characterised extensionally), and no unexpected-options
component. -/
theorem execute_missing_required_exact (c : Command) (args rem : List String)
    (d : List (String × Value))
    (hp : c.parser = Option.none)
    (hpa : c.parse_arguments args = Except.ok (rem, d))
    (hm : c.missing_required d ≠ []) :
    c.execute args =
      ExecResult.raisedUsage { missing_options := some (c.missing_required d),
                               unexpected_options := Option.none } ∧
    ∀ o : CliOption, o ∈ c.missing_required d ↔
      (o ∈ c.all_options ∧ o.required = true ∧
        ((dictGet d o.name).getD Value.null).isNull = true) := by
  constructor
  · unfold Command.execute
    rw [hpa]
    dsimp only
    rw [if_pos (List.length_pos.mpr hm)]
  · intro o
    unfold Command.missing_required
    simp [List.mem_filter]

/-- Witness for C6's theorem: `usernameCmd` executed with no arguments
raises `CommandUsage` with exactly its required `--username` option
missing. -/
theorem execute_missing_required_exact_witness :
    usernameCmd.execute [] =
      ExecResult.raisedUsage { missing_options := some [usernameOpt],
                               unexpected_options := Option.none } :=
  (execute_missing_required_exact usernameCmd [] [] [("--username", Value.null)]
    rfl rfl (fun h => List.noConfusion h)).1

-- Claim C8: hook ordering lemmas ----------------------------------------------

theorem validateLoop_cons (d : List (String × Value)) (x : CliOption)
    (xs : List CliOption) :
    validateLoop d (x :: xs) =
      (match x.validate_func with
       | Option.none => validateLoop d xs
       | some f =>
         match dictGet d x.name with
         | Option.none => Except.error ParseFailure.keyError
         | some v =>
           if v.isNull = true then validateLoop d xs
           else
             match f v with
             | HookRes.ok _ => validateLoop d xs
             | HookRes.valueError _ => Except.error ParseFailure.validationFailed
             | HookRes.otherError m => Except.error (ParseFailure.hookError m)) := rfl

theorem parseFuncLoop_cons (d : List (String × Value)) (x : CliOption)
    (xs : List CliOption) :
    parseFuncLoop d (x :: xs) =
      (match x.parse_func with
       | Option.none => parseFuncLoop d xs
       | some g =>
         match dictGet d x.name with
         | Option.none => Except.error ParseFailure.keyError
         | some v =>
           if v.isNull = true then parseFuncLoop d xs
           else
             match g v with
             | HookRes.ok w => parseFuncLoop (dictSet d x.name w) xs
             | HookRes.valueError _ => Except.error ParseFailure.validationFailed
             | HookRes.otherError m => Except.error (ParseFailure.hookError m)) := rfl

theorem validateLoop_append (d : List (String × Value)) (xs ys : List CliOption) :
    validateLoop d (xs ++ ys) =
      (match validateLoop d xs with
       | Except.error e => Except.error e
       | Except.ok () => validateLoop d ys) := by
  induction xs with
  | nil => rfl
  | cons x xs ih =>
    rw [List.cons_append, validateLoop_cons d x (xs ++ ys), validateLoop_cons d x xs]
    rcases x.validate_func with _ | f
    · exact ih
    · dsimp only
      rcases dictGet d x.name with _ | v
      · rfl
      · dsimp only
        by_cases hn : v.isNull = true
        · rw [if_pos hn, if_pos hn]
          exact ih
        · rw [if_neg hn, if_neg hn]
          rcases f v with w | m | m
          · exact ih
          · rfl
          · rfl

theorem parseFuncLoop_append (xs ys : List CliOption) (d : List (String × Value)) :
    parseFuncLoop d (xs ++ ys) =
      (match parseFuncLoop d xs with
       | Except.error e => Except.error e
       | Except.ok d2 => parseFuncLoop d2 ys) := by
  induction xs generalizing d with
  | nil => rfl
  | cons x xs ih =>
    rw [List.cons_append, parseFuncLoop_cons d x (xs ++ ys), parseFuncLoop_cons d x xs]
    rcases x.parse_func with _ | g
    · exact ih d
    · dsimp only
      rcases dictGet d x.name with _ | v
      · rfl
      · dsimp only
        by_cases hn : v.isNull = true
        · rw [if_pos hn, if_pos hn]
          exact ih d
        · rw [if_neg hn, if_neg hn]
          rcases g v with w | m | m
          · exact ih (dictSet d x.name w)
          · rfl
          · rfl

theorem parseFuncLoop_preserves (xs : List CliOption) (d d2 : List (String × Value))
    (n : String) (h : parseFuncLoop d xs = Except.ok d2)
    (hn : ∀ x ∈ xs, x.name ≠ n) :
    dictGet d2 n = dictGet d n := by
  induction xs generalizing d with
  | nil =>
    injection h with h1
    rw [← h1]
  | cons x xs ih =>
    rw [parseFuncLoop_cons] at h
    rcases hx : x.parse_func with _ | g <;> rw [hx] at h <;> dsimp only at h
    · exact ih _ h (fun y hy => hn y (List.mem_cons_of_mem _ hy))
    · rcases hg : dictGet d x.name with _ | v <;> rw [hg] at h <;> dsimp only at h
      · cases h
      · by_cases hnl : v.isNull = true
        · rw [if_pos hnl] at h
          exact ih _ h (fun y hy => hn y (List.mem_cons_of_mem _ hy))
        · rw [if_neg hnl] at h
          rcases hw : g v with w | m | m <;> rw [hw] at h <;> dsimp only at h
          · rw [ih _ h (fun y hy => hn y (List.mem_cons_of_mem _ hy))]
            exact dictGet_dictSet_ne d x.name n w (hn x (List.mem_cons_self x xs))
          · cases h
          · cases h

theorem parseFuncLoop_keys (xs : List CliOption) (d d2 : List (String × Value))
    (h : parseFuncLoop d xs = Except.ok d2) :
    d2.map Prod.fst = d.map Prod.fst := by
  induction xs generalizing d with
  | nil =>
    injection h with h1
    rw [← h1]
  | cons x xs ih =>
    rw [parseFuncLoop_cons] at h
    rcases hx : x.parse_func with _ | g <;> rw [hx] at h <;> dsimp only at h
    · exact ih _ h
    · rcases hg : dictGet d x.name with _ | v <;> rw [hg] at h <;> dsimp only at h
      · cases h
      · by_cases hnl : v.isNull = true
        · rw [if_pos hnl] at h
          exact ih _ h
        · rw [if_neg hnl] at h
          rcases hw : g v with w | m | m <;> rw [hw] at h <;> dsimp only at h
          · rw [ih _ h, dictSet_keys]
            rw [hg]
            rfl
          · cases h
          · cases h

theorem flagDefaults_preserves_other (os : List CliOption)
    (d d2 : List (String × Value)) (n : String)
    (h : flagDefaults d os = Except.ok d2)
    (hn : ∀ o2 ∈ os, o2.is_flag = true → o2.name ≠ n) :
    dictGet d2 n = dictGet d n := by
  induction os generalizing d with
  | nil =>
    injection h with h1
    rw [← h1]
  | cons o rest ih =>
    unfold flagDefaults at h
    by_cases hf : o.is_flag = true
    · rw [if_pos hf] at h
      rcases hg : dictGet d o.name with _ | v <;> rw [hg] at h <;> dsimp only at h
      · cases h
      · by_cases hv : v.isNull = true
        · rw [if_pos hv] at h
          rw [ih _ h (fun y hy hyf => hn y (List.mem_cons_of_mem _ hy) hyf)]
          exact dictGet_dictSet_ne d o.name n _ (hn o (List.mem_cons_self o rest) hf)
        · rw [if_neg hv] at h
          exact ih _ h (fun y hy hyf => hn y (List.mem_cons_of_mem _ hy) hyf)
    · rw [if_neg hf] at h
      exact ih _ h (fun y hy hyf => hn y (List.mem_cons_of_mem _ hy) hyf)

theorem mem_all_options_of_mem_options (c : Command) (o : CliOption)
    (h : o ∈ c.options) : o ∈ c.all_options := by
  unfold Command.all_options
  have aux : ∀ (gs : List OptionGroup) (init : List CliOption), o ∈ init →
      o ∈ gs.foldl (fun acc g => acc ++ g.options) init := by
    intro gs
    induction gs with
    | nil => intro init h0; exact h0
    | cons g gs ih =>
      intro init h0
      exact ih (init ++ g.options) (List.mem_append_left _ h0)
  exact aux c.option_groups c.options h

theorem parseFuncLoop_applies (l : List CliOption) (o : CliOption)
    (g : Value → HookRes) (d0 d1 : List (String × Value)) (v w : Value)
    (ho : o ∈ l) (hnodup : (l.map CliOption.name).Nodup)
    (hg : o.parse_func = some g)
    (hv : dictGet d0 o.name = some v) (hnull : v.isNull = false)
    (hw : g v = HookRes.ok w)
    (h : parseFuncLoop d0 l = Except.ok d1) :
    dictGet d1 o.name = some w := by
  obtain ⟨preP, postP, rfl⟩ := List.append_of_mem ho
  have hnames : ((preP.map CliOption.name) ++
      o.name :: (postP.map CliOption.name)).Nodup := by
    simpa using hnodup
  have hpre_ne : ∀ x ∈ preP, x.name ≠ o.name := by
    intro x hx heq
    have hdisj := (List.nodup_append.mp hnames).2.2
    exact hdisj (heq ▸ List.mem_map_of_mem CliOption.name hx) (List.mem_cons_self _ _)
  have hpost_ne : ∀ x ∈ postP, x.name ≠ o.name := by
    intro x hx heq
    have hcons := (List.nodup_append.mp hnames).2.1
    rw [List.nodup_cons] at hcons
    exact hcons.1 (heq ▸ List.mem_map_of_mem CliOption.name hx)
  rw [parseFuncLoop_append] at h
  rcases hpre : parseFuncLoop d0 preP with e | dP <;> rw [hpre] at h <;> dsimp only at h
  · cases h
  · have hdP : dictGet dP o.name = some v := by
      rw [parseFuncLoop_preserves preP d0 dP o.name hpre hpre_ne]
      exact hv
    rw [parseFuncLoop_cons] at h
    rw [hg, hdP] at h
    dsimp only at h
    rw [if_neg (by rw [hnull]; exact Bool.false_ne_true)] at h
    rw [hw] at h
    dsimp only at h
    rw [parseFuncLoop_preserves postP _ d1 o.name h hpost_ne]
    exact dictGet_dictSet_self dP o.name w

/-- C8 (confirmed): for an option carrying both a `validate_func` and a
`parse_func` (transform), on any invocation where the option's raw parsed
value is non-null: (A) the validate hook is applied to the raw value
first, and if it rejects, the whole parse fails with
`OptionValidationFailed` (and `execute` returns the data-error exit code)
without the transform influencing the outcome; (B) when parsing succeeds,
the transform's return value has replaced the stored value; (B2) and,
when `execute` reaches the action, that transformed value is what the
action receives under the option's keyword; (C) an option whose parsed
value is null has neither hook invoked — both loops skip it and leave the
dict unchanged, whatever the hooks are. -/
theorem option_hooks_ordering (c : Command) (args : List String) (o : CliOption)
    (f g : Value → HookRes) (v : Value) (d0 : List (String × Value))
    (rem : List String)
    (hrun : runParser c args = Except.ok (ParsedOptions.values d0, rem))
    (ho : o ∈ c.all_options)
    (hvf : o.validate_func = some f) (hgf : o.parse_func = some g)
    (hval : dictGet d0 o.name = some v) :
    (∀ (pre post : List CliOption) (msg : String),
        c.all_options.filter (fun x => x.validate_func.isSome) = pre ++ o :: post →
        validateLoop d0 pre = Except.ok () →
        v.isNull = false → f v = HookRes.valueError msg →
        c.parse_arguments args = Except.error ParseFailure.validationFailed ∧
        c.execute args = ExecResult.returnedDataErr) ∧
    (∀ (w : Value) (rem2 : List String) (d1 : List (String × Value)),
        (c.all_options.map CliOption.name).Nodup →
        v.isNull = false → g v = HookRes.ok w →
        c.parse_arguments args = Except.ok (rem2, d1) →
        dictGet d1 o.name = some w) ∧
    (∀ (w : Value) (rem2 pos : List String) (d1 kw : List (String × Value)),
        (c.all_options.map CliOption.name).Nodup →
        v.isNull = false → g v = HookRes.ok w →
        o.is_flag = false →
        c.parse_arguments args = Except.ok (rem2, d1) →
        (∀ k ∈ d1.map Prod.fst, lstripDashes k = lstripDashes o.name → k = o.name) →
        (d1.map Prod.fst).Nodup →
        c.execute args = ExecResult.invoked pos kw →
        dictGet kw o.keyword = some w) ∧
    (v.isNull = true →
        validateLoop d0 [o] = Except.ok () ∧ parseFuncLoop d0 [o] = Except.ok d0) := by
  refine ⟨?_, ?_, ?_, ?_⟩
  · intro pre post msg hsplit hpre hnn hrej
    have hfail : validateLoop d0
        (c.all_options.filter (fun x => x.validate_func.isSome)) =
        Except.error ParseFailure.validationFailed := by
      rw [hsplit, validateLoop_append, hpre]
      dsimp only
      rw [validateLoop_cons, hvf, hval]
      dsimp only
      rw [if_neg (by rw [hnn]; exact Bool.false_ne_true), hrej]
    have hpa : c.parse_arguments args = Except.error ParseFailure.validationFailed := by
      unfold Command.parse_arguments
      rw [hrun]
      dsimp only [getDictAttr]
      rw [hfail]
    refine ⟨hpa, ?_⟩
    unfold Command.execute
    rw [hpa]
    rfl
  · intro w rem2 d1 hnodup hnn hok hpa
    unfold Command.parse_arguments at hpa
    rw [hrun] at hpa
    dsimp only [getDictAttr] at hpa
    rcases hvl : validateLoop d0
        (c.all_options.filter (fun x => x.validate_func.isSome)) with e | ⟨⟩ <;>
      rw [hvl] at hpa <;> dsimp only at hpa
    · cases hpa
    · rcases hpl : parseFuncLoop d0
          (c.all_options.filter (fun x => x.parse_func.isSome)) with e | d1x <;>
        rw [hpl] at hpa <;> dsimp only at hpa
      · cases hpa
      · injection hpa with hpair
        injection hpair with hr hd
        subst hd
        have hmemf : o ∈ c.all_options.filter (fun x => x.parse_func.isSome) := by
          rw [List.mem_filter]
          exact ⟨ho, by rw [hgf]; rfl⟩
        have hfnodup :
            ((c.all_options.filter (fun x => x.parse_func.isSome)).map
              CliOption.name).Nodup :=
          List.Nodup.sublist
            (List.Sublist.map CliOption.name (List.filter_sublist _)) hnodup
        exact parseFuncLoop_applies _ o g d0 d1x v w hmemf hfnodup hgf hval hnn hok hpl
  · intro w rem2 pos d1 kw hnodup hnn hok hnotflag hpa hcl hnd hex
    have hd1 : dictGet d1 o.name = some w := by
      unfold Command.parse_arguments at hpa
      rw [hrun] at hpa
      dsimp only [getDictAttr] at hpa
      rcases hvl : validateLoop d0
          (c.all_options.filter (fun x => x.validate_func.isSome)) with e | ⟨⟩ <;>
        rw [hvl] at hpa <;> dsimp only at hpa
      · cases hpa
      · rcases hpl : parseFuncLoop d0
            (c.all_options.filter (fun x => x.parse_func.isSome)) with e | d1x <;>
          rw [hpl] at hpa <;> dsimp only at hpa
        · cases hpa
        · injection hpa with hpair
          injection hpair with hr hd
          subst hd
          have hmemf : o ∈ c.all_options.filter (fun x => x.parse_func.isSome) := by
            rw [List.mem_filter]
            exact ⟨ho, by rw [hgf]; rfl⟩
          have hfnodup :
              ((c.all_options.filter (fun x => x.parse_func.isSome)).map
                CliOption.name).Nodup :=
            List.Nodup.sublist
              (List.Sublist.map CliOption.name (List.filter_sublist _)) hnodup
          exact parseFuncLoop_applies _ o g d0 d1x v w hmemf hfnodup hgf hval hnn hok hpl
    unfold Command.execute at hex
    rw [hpa] at hex
    dsimp only at hex
    by_cases hm : (c.missing_required d1).length > 0
    · rw [if_pos hm] at hex
      cases hex
    · rw [if_neg hm] at hex
      rcases hfd : flagDefaults d1 c.options with ⟨⟩ | d2 <;> rw [hfd] at hex <;>
        dsimp only at hex
      · cases hex
      · injection hex with h1 h2
        rw [← h2]
        have hflags_ne : ∀ o2 ∈ c.options, o2.is_flag = true → o2.name ≠ o.name := by
          intro o2 ho2 hf2 heq
          have ho2' : o2 ∈ c.all_options := mem_all_options_of_mem_options c o2 ho2
          have : o2 = o := List.inj_on_of_nodup_map hnodup ho2' ho heq
          rw [this] at hf2
          rw [hnotflag] at hf2
          cases hf2
        have hd2 : dictGet d2 o.name = some w := by
          rw [flagDefaults_preserves_other c.options d1 d2 o.name hfd hflags_ne]
          exact hd1
        have hkeys : d2.map Prod.fst = d1.map Prod.fst :=
          flagDefaults_keys c.options d1 d2 hfd
        exact dictGet_cleanKwargs_unique d2 o.name w (hkeys ▸ hnd)
          (fun k hk => hcl k (hkeys ▸ hk)) hd2
  · intro hnl
    constructor
    · rw [validateLoop_cons, hvf, hval]
      dsimp only
      rw [if_pos hnl]
      rfl
    · rw [parseFuncLoop_cons, hgf, hval]
      dsimp only
      rw [if_pos hnl]
      rfl

/-- Witness for C8's theorem: with `hookedCmd` (option `--o` carrying both
hooks), supplying the rejected value "bad" yields `OptionValidationFailed`
and the data-error exit code; supplying "good" makes the action receive
the transform's return value "X" under the keyword "o". -/
theorem option_hooks_ordering_witness :
    hookedCmd.parse_arguments ["--o", "bad"] =
        Except.error ParseFailure.validationFailed ∧
    hookedCmd.execute ["--o", "bad"] = ExecResult.returnedDataErr ∧
    dictGet [("o", Value.str "X")] hookedOpt.keyword = some (Value.str "X") := by
  have hmain := option_hooks_ordering hookedCmd ["--o", "bad"] hookedOpt
    demoValidate demoTransform (Value.str "bad") [("--o", Value.str "bad")] []
    rfl (by simp [Command.all_options, hookedCmd]) rfl rfl rfl
  have hA := hmain.1 [] [] "bad value" rfl rfl rfl rfl
  have hmain2 := option_hooks_ordering hookedCmd ["--o", "good"] hookedOpt
    demoValidate demoTransform (Value.str "good") [("--o", Value.str "good")] []
    rfl (by simp [Command.all_options, hookedCmd]) rfl rfl rfl
  have hB2 := hmain2.2.2.1 (Value.str "X") [] [] [("--o", Value.str "X")]
    [("o", Value.str "X")] (by decide) rfl rfl rfl rfl
    (by decide) (by decide) rfl
  exact ⟨hA.1, hA.2, hB2⟩

end Okaara
